import Mathlib

set_option maxRecDepth 100000

/-!
# CSV upload pipeline (`main.go`)

A shallow embedding of the upload handler: the CSV reader loop that feeds the
job queue, the worker goroutines started by `dispatchWorkers`, the insert
statement built by `doTheJob`, and the file-name computation of `uploadFile`.

Go strings are Lean `String`s, `[]string` and `[]interface{}` are lists, Go
`int` is `Int`.  Goroutines are modelled by an interleaving step function on
an explicit state (`PipelineState`): the unbuffered channel `jobs` is a
rendezvous between the sender and one receiving worker.
-/

namespace Upload

/-! ## Process-wide variables -/

/-- The variable `totalWorker` of `main.go`. -/
def totalWorker : Int := 100

/-- The variable `dataHeaders` of `main.go`: the twelve column names. -/
def dataHeaders : List String :=
  [ "GlobalRank", "TldRank", "Domain", "TLD", "RefSubNets", "RefIPs",
    "IDN_Domain", "IDN_TLD", "PrevGlobalRank", "PrevTldRank",
    "PrevRefSubNets", "PrevRefIPs" ]

/-! ## The CSV reader (`encoding/csv`)

The reader is taken at the level of records: the input is the list of lines
as the lexer splits them, each one either a list of fields or a line that
cannot be lexed (a stray or unterminated quote).  `Read` carries the
field-count rule of `csv.Reader`: with `FieldsPerRecord = 0` the first record
fixes the expected count, and a later record with another count is returned
together with `ErrFieldCount`. -/

/-- A record of the CSV file, `[]string`. -/
abbrev Row := List String

/-- A job on the queue, `[]interface{}` (every element holds a string). -/
abbrev Job := List String

/-- One line of the input as the lexer sees it. -/
inductive RawRecord where
  | fields (fs : Row)
  | quoteError
  deriving DecidableEq, Repr

/-- The errors `csv.Reader.Read` returns. -/
inductive ReadError where
  | EOF
  | ErrFieldCount
  | ErrQuote
  deriving DecidableEq, Repr

/-- The state of a `csv.Reader`: the expected field count and the input left. -/
structure Reader where
  FieldsPerRecord : Int
  pending : List RawRecord
  deriving DecidableEq, Repr

/-- The pair `(record, err)` that `Read` returns. -/
structure ReadResult where
  record : Row
  err : Option ReadError
  deriving DecidableEq, Repr

/-- The function `csv.NewReader`: no expected field count yet. -/
def NewReader (input : List RawRecord) : Reader :=
  { FieldsPerRecord := 0, pending := input }

/-- The method `csv.Reader.Read`: the next record, or an error.  At the end of
the input it returns `io.EOF`; a record whose field count differs from
`FieldsPerRecord` comes back together with `ErrFieldCount`; a negative
`FieldsPerRecord` means no check.  The program stops reading at the first
error, so the reader's state after an error is never looked at. -/
def Reader.Read (r : Reader) : ReadResult × Reader :=
  match r.pending with
  | [] => ({ record := [], err := some .EOF }, r)
  | .quoteError :: rest =>
      ({ record := [], err := some .ErrQuote }, { r with pending := rest })
  | .fields fs :: rest =>
      if 0 < r.FieldsPerRecord then
        if (fs.length : Int) ≠ r.FieldsPerRecord then
          ({ record := fs, err := some .ErrFieldCount }, { r with pending := rest })
        else
          ({ record := fs, err := none }, { r with pending := rest })
      else if r.FieldsPerRecord = 0 then
        ({ record := fs, err := none },
         { FieldsPerRecord := (fs.length : Int), pending := rest })
      else
        ({ record := fs, err := none }, { r with pending := rest })

/-! ## `readCsvFilePerLineThenSendToWorker` -/

/-- What the producer does to the shared objects, in program order. -/
inductive Event where
  | wgAdd
  | send (job : Job)
  | close
  deriving DecidableEq, Repr

/-- The inner loop `for _, each := range row { rowOrdered = append(rowOrdered, each) }`. -/
def rowOrdered (row : Row) : Job :=
  row.foldl (fun acc each => acc ++ [each]) []

/-- The `for` loop of `readCsvFilePerLineThenSendToWorker`, one iteration per
unit of fuel, followed by `close(jobs)`.  `none` means the fuel ran out. -/
def readLoop : Nat → Reader → Bool → Option (List Event)
  | 0, _, _ => none
  | fuel + 1, csvReader, isHeader =>
      match csvReader.Read with
      | (res, csvReader') =>
        match res.err with
        | some _ => some [Event.close]
        | none =>
          if isHeader then
            readLoop fuel csvReader' false
          else
            (readLoop fuel csvReader' false).map
              (fun rest => Event.wgAdd :: Event.send (rowOrdered res.record) :: rest)

/-- The function `readCsvFilePerLineThenSendToWorker`: its effects on `wg` and
`jobs`, in order.  Every iteration consumes one input line or ends the loop,
so one unit of fuel per line and one for the end of input is enough. -/
def readCsvFilePerLineThenSendToWorker (csvReader : Reader) : Option (List Event) :=
  readLoop (csvReader.pending.length + 1) csvReader true

/-- The jobs sent on the queue by a sequence of producer events. -/
def sentJobs : List Event → List Job
  | [] => []
  | Event.send job :: rest => job :: sentJobs rest
  | _ :: rest => sentJobs rest

/-- The number of `wg.Add(1)` calls in a sequence of producer events. -/
def addCount : List Event → Nat
  | [] => 0
  | Event.wgAdd :: rest => addCount rest + 1
  | _ :: rest => addCount rest

/-! ## `generateQuestionsMark` and the insert statement of `doTheJob` -/

/-- The loop `for i := 0; i < n; i++ { s = append(s, "?") }`.  `none` means
the fuel ran out. -/
def generateQuestionsMarkLoop (n : Int) : Nat → Int → List String → Option (List String)
  | 0, i, s => if i < n then none else some s
  | fuel + 1, i, s =>
      if i < n then generateQuestionsMarkLoop n fuel (i + 1) (s ++ ["?"]) else some s

/-- The function `generateQuestionsMark`. -/
def generateQuestionsMark (n : Int) : Option (List String) :=
  generateQuestionsMarkLoop n n.toNat 0 []

/-- The function `strings.Join`. -/
def stringsJoin (elems : List String) (sep : String) : String :=
  sep.intercalate elems

/-- A statement handed to `conn.ExecContext`: the query text and its arguments. -/
structure Stmt where
  query : String
  args : List String
  deriving DecidableEq, Repr

/-- The query text `fmt.Sprintf("insert into domain (%s) values (%s)", ...)` of `doTheJob`. -/
def insertQuery : Option String :=
  (generateQuestionsMark (dataHeaders.length : Int)).map fun marks =>
    "insert into domain (" ++ stringsJoin dataHeaders "," ++ ") values (" ++
      stringsJoin marks "," ++ ")"

/-- The call `conn.ExecContext(ctx, query, values...)` of `doTheJob`. -/
def insertStmt (values : Job) : Option Stmt :=
  insertQuery.map fun query => { query := query, args := values }

/-- How one pass through the loop of `doTheJob` goes: the connection is
missing and the `ExecContext` call panics (recovered, so the loop repeats), the
statement fails (`log.Fatal`), the statement is executed but the connection
does not close (`log.Fatal`), or the insert is made and the loop ends. -/
inductive AttemptOutcome where
  | connPanic
  | execError
  | closeError
  | ok
  deriving DecidableEq, Repr

/-! ## The file name of `uploadFile` -/

/-- A run-time panic of the Go program. -/
inductive Panic where
  | nilDereference
  | indexOutOfRange (index : Nat) (length : Nat)
  deriving DecidableEq, Repr

/-- The text up to the first separator, and the pieces after it. -/
def splitPieces (sep : Char) : List Char → List Char × List (List Char)
  | [] => ([], [])
  | c :: cs =>
      if c = sep then ([], (splitPieces sep cs).1 :: (splitPieces sep cs).2)
      else (c :: (splitPieces sep cs).1, (splitPieces sep cs).2)

/-- The function `strings.Split` for a separator of one character: the pieces
of `s` between the separators, at least one. -/
def stringsSplit (s : String) (sep : Char) : List String :=
  ((splitPieces sep s.data).1 :: (splitPieces sep s.data).2).map String.mk

/-- An index expression `a[i]` on a slice: a panic when `i` is out of range. -/
def indexSlice (a : List String) (i : Nat) : Except Panic String :=
  match a[i]? with
  | some x => .ok x
  | none => .error (.indexOutOfRange i a.length)

/-- The two lines
`fileArray := strings.Split(handler.Filename, ".")` and
`fileName := fileArray[0] + "-" + time.Now().Format("20060102150405") + "." + fileArray[1]`
of `uploadFile`; `now` is the formatted time. -/
def storedFileName (Filename : String) (now : String) : Except Panic String :=
  let fileArray := stringsSplit Filename '.'
  match indexSlice fileArray 0 with
  | .error p => .error p
  | .ok base =>
    match indexSlice fileArray 1 with
    | .error p => .error p
    | .ok ext => .ok (base ++ "-" ++ now ++ "." ++ ext)

/-! ## `dispatchWorkers` -/

/-- The loop `for workerIndex := 0; workerIndex <= totalWorker; workerIndex++`
of `dispatchWorkers`: the indices of the goroutines it starts, in order.
`none` means the fuel ran out. -/
def dispatchLoop (totalWorker : Int) : Nat → Int → Option (List Int)
  | 0, workerIndex => if workerIndex ≤ totalWorker then none else some []
  | fuel + 1, workerIndex =>
      if workerIndex ≤ totalWorker then
        (dispatchLoop totalWorker fuel (workerIndex + 1)).map (fun rest => workerIndex :: rest)
      else some []

/-- The function `dispatchWorkers`: the worker goroutines it starts. -/
def dispatchWorkers (totalWorker : Int) : Option (List Int) :=
  dispatchLoop totalWorker (totalWorker + 1).toNat 0

/-! ## The pipeline: producer, dispatcher and workers as one step function -/

/-- Where a worker goroutine stands in
`for job := range jobs { doTheJob(...); defer wg.Done(); counter++ }`. -/
inductive WorkerPc where
  | recv
  | working (job : Job)
  | afterJob
  | exiting
  | exited
  deriving DecidableEq, Repr

/-- A worker goroutine: its index, its local `counter`, the number of
`wg.Done` calls it has deferred and not yet run, and its position. -/
structure Worker where
  workerIndex : Int
  counter : Int
  deferred : Nat
  pc : WorkerPc
  deriving DecidableEq, Repr

/-- The state of one ingestion run. -/
structure PipelineState where
  /-- What `readCsvFilePerLineThenSendToWorker` still has to do. -/
  events : List Event
  /-- The goroutines `dispatchWorkers` still has to start. -/
  spawns : List Int
  workers : List Worker
  /-- Whether `jobs` is closed. -/
  closed : Bool
  /-- The counter of the wait group. -/
  wg : Int
  /-- The number of `wg.Add(1)` calls so far. -/
  adds : Nat
  /-- The number of `wg.Done()` calls so far. -/
  dones : Nat
  /-- The jobs handed over on `jobs`, in order. -/
  sent : List Job
  /-- The statements executed successfully, in order. -/
  inserted : List Stmt
  /-- Whether `wg.Wait()` has returned. -/
  waitReturned : Bool
  /-- Whether the process has ended (`log.Fatal`, or a panic in a goroutine). -/
  crashed : Bool
  deriving DecidableEq, Repr

/-- The moves of the scheduler. -/
inductive Action where
  /-- The dispatcher starts its next goroutine. -/
  | spawn
  /-- The main goroutine runs `wg.Add(1)`, `close(jobs)` or returns from `wg.Wait()`. -/
  | produce
  /-- The send `jobs <- rowOrdered` meets the receive of worker `i`. -/
  | handoff (i : Nat)
  /-- Worker `i` goes once round the loop of `doTheJob`. -/
  | attempt (i : Nat) (o : AttemptOutcome)
  /-- Worker `i` registers its deferred call, sees the closed queue, runs a
  deferred call or returns. -/
  | worker (i : Nat)
  deriving DecidableEq, Repr

/-- A worker as the `go func(...)` statement starts it. -/
def newWorker (workerIndex : Int) : Worker :=
  { workerIndex := workerIndex, counter := 0, deferred := 0, pc := .recv }

/-- The function `doTheJob`, one pass through its `for` loop, in worker `i`
(`w`), which holds the job `values`.  When the connection is missing the call
of `ExecContext` panics, the panic is recovered and the loop runs again: the
worker stays where it is.  When the statement fails, `log.Fatal` ends the
process.  When the statement is executed, either the connection closes and the
loop ends, or `log.Fatal` ends the process.  The progress line logged every
100 jobs is left out. -/
def doTheJob (s : PipelineState) (i : Nat) (w : Worker) (values : Job) :
    AttemptOutcome → Option PipelineState
  | .connPanic => some s
  | .execError => some { s with crashed := true }
  | .closeError =>
      (insertStmt values).map fun stmt =>
        { s with inserted := s.inserted ++ [stmt], crashed := true,
                 workers := s.workers.set i { w with pc := .afterJob } }
  | .ok =>
      (insertStmt values).map fun stmt =>
        { s with inserted := s.inserted ++ [stmt],
                 workers := s.workers.set i { w with pc := .afterJob } }

/-- A step of worker `w` outside `doTheJob`. -/
def workerStep (s : PipelineState) (i : Nat) (w : Worker) : Option PipelineState :=
  match w.pc with
  | .recv =>
      if s.closed then some { s with workers := s.workers.set i { w with pc := .exiting } }
      else none
  | .working _ => none
  | .afterJob =>
      some { s with workers := s.workers.set i
                      { w with deferred := w.deferred + 1, counter := w.counter + 1, pc := .recv } }
  | .exiting =>
      if w.deferred = 0 then
        some { s with workers := s.workers.set i { w with pc := .exited } }
      else
        some { s with wg := s.wg - 1, dones := s.dones + 1,
                      crashed := decide (s.wg - 1 < 0),
                      workers := s.workers.set i { w with deferred := w.deferred - 1 } }
  | .exited => none

/-- One step of the run; `none` when the move is not enabled.  A send needs a
worker at its receive (the queue has capacity 0); a receive on the open, empty
queue blocks; after `log.Fatal` nothing moves. -/
def step (a : Action) (s : PipelineState) : Option PipelineState :=
  if s.crashed then none else
  match a with
  | .spawn =>
      match s.spawns with
      | [] => none
      | workerIndex :: rest =>
          some { s with spawns := rest, workers := s.workers ++ [newWorker workerIndex] }
  | .produce =>
      match s.events with
      | Event.wgAdd :: rest => some { s with events := rest, wg := s.wg + 1, adds := s.adds + 1 }
      | Event.close :: rest =>
          if s.closed then none else some { s with events := rest, closed := true }
      | Event.send _ :: _ => none
      | [] =>
          if s.wg = 0 ∧ s.waitReturned = false then some { s with waitReturned := true }
          else none
  | .handoff i =>
      match s.events, s.workers[i]? with
      | Event.send job :: rest, some w =>
          if w.pc = .recv ∧ s.closed = false then
            some { s with events := rest, sent := s.sent ++ [job],
                          workers := s.workers.set i { w with pc := .working job } }
          else none
      | _, _ => none
  | .attempt i o =>
      match s.workers[i]? with
      | some w =>
          match w.pc with
          | .working job => doTheJob s i w job o
          | _ => none
      | none => none
  | .worker i =>
      match s.workers[i]? with
      | some w => workerStep s i w
      | none => none

/-- A run under a schedule: the moves one after the other. -/
def run : List Action → PipelineState → Option PipelineState
  | [], s => some s
  | a :: rest, s => (step a s).bind (run rest)

/-- The state `uploadFile` sets up: `jobs` open and empty, the wait group at
0, `go dispatchWorkers(...)` about to start its goroutines, and
`readCsvFilePerLineThenSendToWorker` about to read. -/
def startPipeline (totalWorker : Int) (csvReader : Reader) : Option PipelineState :=
  (readCsvFilePerLineThenSendToWorker csvReader).bind fun events =>
  (dispatchWorkers totalWorker).map fun spawns =>
    { events := events, spawns := spawns, workers := [], closed := false, wg := 0,
      adds := 0, dones := 0, sent := [], inserted := [], waitReturned := false,
      crashed := false }

/-- The run is complete: the producer has returned, the dispatcher has started
all its goroutines and every worker has returned. -/
def PipelineState.complete (s : PipelineState) : Bool :=
  s.events.isEmpty && s.spawns.isEmpty && s.workers.all (fun w => decide (w.pc = .exited))

/-- The rows bound to the statements executed so far. -/
def PipelineState.insertedRows (s : PipelineState) : List Row :=
  s.inserted.map Stmt.args

/-! ## `uploadFile` -/

/-- The `*multipart.FileHeader` of the upload. -/
structure FileHeader where
  Filename : String
  deriving DecidableEq, Repr

/-- What `r.FormFile("file")` returns: the header (absent for `nil`) and
whether `err` is set. -/
structure FormFileResult where
  handler : Option FileHeader
  err : Bool
  deriving DecidableEq, Repr

/-- What `openCsvFile` meets: the file with its records, a missing file, or
another error of `os.Open`. -/
inductive OpenCsvResult where
  | ok (records : List RawRecord)
  | notExist
  | otherError
  deriving DecidableEq, Repr

/-- The outside world of one call of `uploadFile`. -/
structure Env where
  dbOpenErr : Bool
  formFile : FormFileResult
  now : String
  openFileErr : Bool
  copyErr : Bool
  openCsv : OpenCsvResult
  deriving DecidableEq, Repr

/-- How a call of `uploadFile` ends. -/
inductive Outcome where
  /-- The process ended in `log.Fatal`. -/
  | fatal
  | panicked (p : Panic)
  | returned (succeeded : Bool) (fileName : String)
  /-- The schedule stops before `uploadFile` returns. -/
  | unfinished
  deriving DecidableEq, Repr

/-- A call of `uploadFile`: how it ends and the statements executed. -/
structure UploadRun where
  outcome : Outcome
  inserted : List Stmt
  deriving DecidableEq, Repr

/-- The method `uploaderUseCase.uploadFile`, the goroutines scheduled by `sched`. -/
def uploadFile (env : Env) (sched : List Action) : UploadRun :=
  if env.dbOpenErr then ⟨.fatal, []⟩ else
  match env.formFile.handler with
  | none => ⟨.panicked .nilDereference, []⟩
  | some handler =>
    match storedFileName handler.Filename env.now with
    | .error p => ⟨.panicked p, []⟩
    | .ok fileName =>
      if env.formFile.err then ⟨.returned false fileName, []⟩ else
      if env.openFileErr then ⟨.returned false fileName, []⟩ else
      if env.copyErr then ⟨.returned false fileName, []⟩ else
      match env.openCsv with
      | .notExist => ⟨.fatal, []⟩
      | .otherError => ⟨.panicked .nilDereference, []⟩
      | .ok records =>
        match (startPipeline totalWorker (NewReader records)).bind (run sched) with
        | none => ⟨.unfinished, []⟩
        | some s =>
          if s.crashed then ⟨.fatal, s.inserted⟩
          else if s.waitReturned then ⟨.returned true fileName, s.inserted⟩
          else ⟨.unfinished, s.inserted⟩

/-! ## Predicates used by the statements -/

/-- Successive calls of `Read` on `r` return the records `rows` without error,
and the next call returns the error `e`. -/
inductive Reads : Reader → List Row → ReadError → Prop where
  | stop {r : Reader} {e : ReadError} (h : r.Read.1.err = some e) : Reads r [] e
  | next {r : Reader} {rows : List Row} {e : ReadError} (h : r.Read.1.err = none)
      (rest : Reads r.Read.2 rows e) : Reads r (r.Read.1.record :: rows) e

/-- The events of a producer that submits `jobs` and then closes the queue. -/
def producerTrace : List Job → List Event
  | [] => [Event.close]
  | job :: rest => Event.wgAdd :: Event.send job :: producerTrace rest

/-- The job a worker holds between its receive and its insert. -/
def held (w : Worker) : Multiset Job :=
  match w.pc with
  | .working job => {job}
  | _ => 0

/-- The inserts of a worker whose `wg.Done` has not run yet: the deferred
calls, and the insert just made whose `defer` statement is still to come. -/
def owed (w : Worker) : Nat :=
  w.deferred + (if w.pc = .afterJob then 1 else 0)

/-- Where the producer stands when it is to submit `jobs` in all: before a
`wg.Add(1)` or the `close`, before a send, or after the `close`. -/
def ProducerAt (jobs : List Job) (s : PipelineState) : Prop :=
  (∃ rest, s.events = producerTrace rest ∧ jobs = s.sent ++ rest ∧
      s.adds = s.sent.length ∧ s.closed = false) ∨
  (∃ job rest, s.events = Event.send job :: producerTrace rest ∧
      jobs = s.sent ++ job :: rest ∧ s.adds = s.sent.length + 1 ∧ s.closed = false) ∨
  (s.events = [] ∧ jobs = s.sent ∧ s.adds = s.sent.length ∧ s.closed = true)

/-- The invariant of a run that is to submit `jobs`. -/
structure Inv (jobs : List Job) (s : PipelineState) : Prop where
  producer : ProducerAt jobs s
  wg_eq : s.wg = (s.adds : Int) - (s.dones : Int)
  sent_eq : (s.sent : Multiset Job) = (s.insertedRows : Multiset Job) + (s.workers.map held).sum
  owed_eq : s.inserted.length = s.dones + (s.workers.map owed).sum
  exited_deferred : ∀ w ∈ s.workers, w.pc = .exited → w.deferred = 0
  returned : s.waitReturned = true → s.events = [] ∧ s.wg = 0

/-- The stored name as the specification words it,
`<original-base>-<ts>.<original-ext>`: the extension is the part of the
original name after its last '.', the base is the name without its extension
(and without the '.' before it). -/
def specStoredFileName (name : String) (ts : String) : String :=
  let pieces := stringsSplit name '.'
  let ext := pieces.getLast?.getD ""
  let base := ".".intercalate pieces.dropLast
  base ++ "-" ++ ts ++ "." ++ ext

/-- Every statement executed is the insert statement of `doTheJob` for its arguments. -/
def StmtsOk (s : PipelineState) : Prop :=
  ∀ stmt ∈ s.inserted, insertStmt stmt.args = some stmt

/-! ## Sample inputs -/

/-- The header line of a file for the table `domain`: the twelve column names. -/
def sampleHeader : Row := dataHeaders

/-- A data row of twelve fields. -/
def sampleRow1 : Row :=
  ["1", "1", "google.com", "com", "494155", "3099703", "google.com", "com", "1", "1",
   "493314", "3098386"]

/-- Another data row of twelve fields. -/
def sampleRow2 : Row :=
  ["2", "2", "facebook.com", "com", "491376", "3105028", "facebook.com", "com", "2", "2",
   "490523", "3103669"]

/-- A stream of the header and two data rows, twelve fields each. -/
def sampleStream : List RawRecord :=
  [.fields sampleHeader, .fields sampleRow1, .fields sampleRow2]

/-- A stream whose third record has three fields where the header has twelve. -/
def malformedStream : List RawRecord :=
  [.fields sampleHeader, .fields sampleRow1, .fields ["x", "y", "z"], .fields sampleRow2]

/-- A stream of three columns: the header `a,b,c` and the row `1,2,3`. -/
def threeColumnStream : List RawRecord :=
  [.fields ["a", "b", "c"], .fields ["1", "2", "3"]]

/-- An upload of `data.csv` that is saved and opened without error and holds `records`. -/
def uploadOf (records : List RawRecord) : Env :=
  { dbOpenErr := false, formFile := { handler := some { Filename := "data.csv" }, err := false },
    now := "20240101000000", openFileErr := false, copyErr := false, openCsv := .ok records }

/-- A schedule for one data row: one goroutine starts, takes the row, inserts
it, and returns once the queue is closed; then `wg.Wait()` returns. -/
def oneRowSchedule : List Action :=
  [.spawn, .produce, .handoff 0, .attempt 0 .ok, .worker 0, .produce, .worker 0, .worker 0,
   .worker 0, .produce]

end Upload

namespace Upload

/-! ## The reader loop: what is read is what is sent -/

theorem rowOrdered_eq (row : Row) : rowOrdered row = row := by
  have h : ∀ (l acc : List String),
      l.foldl (fun acc each => acc ++ [each]) acc = acc ++ l := by
    intro l
    induction l with
    | nil => intro acc; simp
    | cons x xs ih => intro acc; simp [List.foldl, ih]
  simpa [rowOrdered] using h row []

theorem sentJobs_producerTrace (jobs : List Job) : sentJobs (producerTrace jobs) = jobs := by
  induction jobs with
  | nil => rfl
  | cons j js ih => simp [producerTrace, sentJobs, ih]

theorem addCount_producerTrace (jobs : List Job) : addCount (producerTrace jobs) = jobs.length := by
  induction jobs with
  | nil => rfl
  | cons j js ih => simp [producerTrace, addCount, ih]

theorem Read_pending_of_ok (r : Reader) (h : r.Read.1.err = none) :
    r.Read.2.pending.length + 1 = r.pending.length := by
  obtain ⟨fpr, pending⟩ := r
  cases pending with
  | nil => simp [Reader.Read] at h
  | cons x rest =>
    cases x with
    | quoteError => simp [Reader.Read] at h
    | fields fs =>
      simp only [Reader.Read] at h ⊢
      split_ifs at h ⊢ <;> simp_all

/-- Every reader yields some records and then an error (the end of input at the latest). -/
theorem reads_total (r : Reader) : ∃ rows e, Reads r rows e := by
  generalize hn : r.pending.length = n
  induction n generalizing r with
  | zero =>
    refine ⟨[], .EOF, Reads.stop ?_⟩
    have : r.pending = [] := List.length_eq_zero.mp hn
    simp [Reader.Read, this]
  | succ n ih =>
    cases herr : r.Read.1.err with
    | some e => exact ⟨[], e, Reads.stop herr⟩
    | none =>
      have hlen := Read_pending_of_ok r herr
      obtain ⟨rows, e, hrows⟩ := ih r.Read.2 (by omega)
      exact ⟨_, e, Reads.next herr hrows⟩

/-- The records and the error of a reader are determined. -/
theorem reads_unique {r : Reader} {rows rows' : List Row} {e e' : ReadError}
    (h : Reads r rows e) (h' : Reads r rows' e') : rows = rows' ∧ e = e' := by
  induction h generalizing rows' e' with
  | stop h =>
    cases h' with
    | stop h2 => rw [h] at h2; exact ⟨rfl, Option.some.inj h2⟩
    | next h2 _ => rw [h] at h2; cases h2
  | next h _ ih =>
    cases h' with
    | stop h2 => rw [h] at h2; cases h2
    | next _ rest2 =>
      obtain ⟨h1, h2⟩ := ih rest2
      exact ⟨by rw [h1], h2⟩

/-- After the header, the loop sends every record read, then closes the queue. -/
theorem readLoop_data {r : Reader} {rows : List Row} {e : ReadError} (h : Reads r rows e) :
    ∀ fuel, r.pending.length + 1 ≤ fuel → readLoop fuel r false = some (producerTrace rows) := by
  induction h with
  | stop h =>
    intro fuel hf
    obtain ⟨fuel, rfl⟩ : ∃ k, fuel = k + 1 := ⟨fuel - 1, by omega⟩
    simp [readLoop, h, producerTrace]
  | @next r rows e h _ ih =>
    intro fuel hf
    obtain ⟨fuel, rfl⟩ : ∃ k, fuel = k + 1 := ⟨fuel - 1, by omega⟩
    have hlen := Read_pending_of_ok r h
    have := ih fuel (by omega)
    simp [readLoop, h, this, producerTrace, rowOrdered_eq]

/-- The whole loop: the first record is skipped, the others are sent in order. -/
theorem readCsv_trace {r : Reader} {rows : List Row} {e : ReadError} (h : Reads r rows e) :
    readCsvFilePerLineThenSendToWorker r = some (producerTrace rows.tail) := by
  unfold readCsvFilePerLineThenSendToWorker
  cases h with
  | stop h => simp [readLoop, h, producerTrace]
  | @next r rows e h rest =>
    have hlen := Read_pending_of_ok r h
    have := readLoop_data rest r.pending.length (by omega)
    simp [readLoop, h, this]

/-! ## The counted loops -/

theorem generateQuestionsMarkLoop_eq (n : Int) :
    ∀ (fuel : Nat) (i : Int) (s : List String), 0 ≤ i → (n - i).toNat ≤ fuel →
      generateQuestionsMarkLoop n fuel i s = some (s ++ List.replicate (n - i).toNat "?") := by
  intro fuel
  induction fuel with
  | zero =>
    intro i s _ hf
    have : ¬ i < n := by omega
    have h0 : (n - i).toNat = 0 := by omega
    simp [generateQuestionsMarkLoop, this, h0]
  | succ fuel ih =>
    intro i s hi hf
    by_cases hlt : i < n
    · have h1 : (n - i).toNat = (n - (i + 1)).toNat + 1 := by omega
      rw [generateQuestionsMarkLoop, if_pos hlt, ih (i + 1) _ (by omega) (by omega), h1]
      simp [List.replicate_succ]
    · have h0 : (n - i).toNat = 0 := by omega
      simp [generateQuestionsMarkLoop, hlt, h0]

/-- The function `generateQuestionsMark` returns `n` question marks (none for `n < 0`). -/
theorem generateQuestionsMark_eq (n : Int) :
    generateQuestionsMark n = some (List.replicate n.toNat "?") := by
  have := generateQuestionsMarkLoop_eq n n.toNat 0 [] (le_refl 0) (by simp)
  simpa [generateQuestionsMark] using this

theorem insertQuery_eq : insertQuery = some
    "insert into domain (GlobalRank,TldRank,Domain,TLD,RefSubNets,RefIPs,IDN_Domain,IDN_TLD,PrevGlobalRank,PrevTldRank,PrevRefSubNets,PrevRefIPs) values (?,?,?,?,?,?,?,?,?,?,?,?)" := by
  decide

theorem insertStmt_args (values : Job) :
    ∃ stmt, insertStmt values = some stmt ∧ stmt.args = values := by
  simp [insertStmt, insertQuery_eq]

theorem dispatchLoop_eq (totalWorker : Int) :
    ∀ (fuel : Nat) (workerIndex : Int), (totalWorker + 1 - workerIndex).toNat ≤ fuel →
      dispatchLoop totalWorker fuel workerIndex =
        some ((List.range (totalWorker + 1 - workerIndex).toNat).map
          (fun (k : Nat) => workerIndex + (k : Int))) := by
  intro fuel
  induction fuel with
  | zero =>
    intro wi hf
    have : ¬ wi ≤ totalWorker := by omega
    have h0 : (totalWorker + 1 - wi).toNat = 0 := by omega
    simp [dispatchLoop, this, h0]
  | succ fuel ih =>
    intro wi hf
    by_cases hle : wi ≤ totalWorker
    · have h1 : (totalWorker + 1 - wi).toNat = (totalWorker + 1 - (wi + 1)).toNat + 1 := by omega
      rw [dispatchLoop, if_pos hle, ih (wi + 1) (by omega), h1, List.range_succ_eq_map]
      simp [Function.comp_def]
      intro a _
      omega
    · have h0 : (totalWorker + 1 - wi).toNat = 0 := by omega
      simp [dispatchLoop, hle, h0]

/-- The function `dispatchWorkers` starts the goroutines `0, 1, ..., totalWorker`. -/
theorem dispatchWorkers_eq (totalWorker : Int) :
    dispatchWorkers totalWorker =
      some ((List.range (totalWorker + 1).toNat).map (fun (k : Nat) => (k : Int))) := by
  have := dispatchLoop_eq totalWorker (totalWorker + 1).toNat 0 (by simp)
  simpa [dispatchWorkers] using this

/-! ## The invariant of the pipeline -/

theorem sum_map_set {M : Type} [AddCommMonoid M] (f : Worker → M) :
    ∀ (ws : List Worker) (i : Nat) (w w' : Worker), ws[i]? = some w →
      ((ws.set i w').map f).sum + f w = (ws.map f).sum + f w' := by
  intro ws
  induction ws with
  | nil => intro i w w' h; simp at h
  | cons x xs ih =>
    intro i w w' h
    cases i with
    | zero =>
      simp at h
      subst h
      simp [add_comm, add_left_comm]
    | succ i =>
      simp at h
      have := ih i w w' h
      simp only [List.set_cons_succ, List.map_cons, List.sum_cons, add_assoc, this]

theorem sum_map_eq_zero {M : Type} [AddCommMonoid M] (f : Worker → M) (ws : List Worker)
    (h : ∀ w ∈ ws, f w = 0) : (ws.map f).sum = 0 := by
  induction ws with
  | nil => simp
  | cons x xs ih =>
    simp only [List.map_cons, List.sum_cons]
    rw [h x (List.mem_cons_self _ _), ih (fun w hw => h w (List.mem_cons_of_mem _ hw)), add_zero]

theorem owed_le_sum (ws : List Worker) (w : Worker) (h : w ∈ ws) :
    owed w ≤ (ws.map owed).sum := by
  induction ws with
  | nil => simp at h
  | cons x xs ih =>
    simp only [List.map_cons, List.sum_cons]
    rcases List.mem_cons.mp h with rfl | h
    · omega
    · have := ih h; omega

theorem mem_of_getElem? {ws : List Worker} {i : Nat} {w : Worker} (h : ws[i]? = some w) :
    w ∈ ws := by
  obtain ⟨hi, rfl⟩ := List.getElem?_eq_some_iff.mp h
  exact List.getElem_mem hi

theorem card_sent {jobs : List Job} {s : PipelineState} (h : Inv jobs s) :
    s.sent.length = s.inserted.length + Multiset.card ((s.workers.map held).sum) := by
  have := congrArg Multiset.card h.sent_eq
  simpa [PipelineState.insertedRows] using this

theorem adds_ge_sent {jobs : List Job} {s : PipelineState} (h : Inv jobs s) :
    s.sent.length ≤ s.adds := by
  rcases h.producer with ⟨_, _, _, h, _⟩ | ⟨_, _, _, _, h, _⟩ | ⟨_, _, h, _⟩ <;> omega

/-- The counter of the wait group is the number of inserts owed, the jobs held
and the job announced but not yet sent: it is never negative. -/
theorem Inv.wg_nonneg {jobs : List Job} {s : PipelineState} (h : Inv jobs s) : 0 ≤ s.wg := by
  have h1 := card_sent h
  have h2 := adds_ge_sent h
  have h3 := h.owed_eq
  have h4 := h.wg_eq
  omega

theorem inv_spawn {jobs : List Job} {s : PipelineState} (h : Inv jobs s) (workerIndex : Int)
    (rest : List Int) :
    Inv jobs { s with spawns := rest, workers := s.workers ++ [newWorker workerIndex] } := by
  refine ⟨?_, h.wg_eq, ?_, ?_, ?_, h.returned⟩
  · simpa [ProducerAt] using h.producer
  · simpa [PipelineState.insertedRows, held, newWorker] using h.sent_eq
  · simpa [owed, newWorker] using h.owed_eq
  · intro w hw hpc
    rcases List.mem_append.mp hw with hw | hw
    · exact h.exited_deferred w hw hpc
    · simp at hw; subst hw; simp [newWorker] at hpc

theorem inv_produce {jobs : List Job} {s s' : PipelineState} (h : Inv jobs s)
    (hs : step .produce s = some s') : Inv jobs s' := by
  by_cases hc : s.crashed = true
  · simp [step, hc] at hs
  simp only [step, hc, Bool.false_eq_true, if_false] at hs
  split at hs
  · -- wg.Add(1)
    rename_i rest hev
    simp only [Option.some.injEq] at hs
    subst hs
    have hret : s.waitReturned = false := by
      cases hr : s.waitReturned with
      | false => rfl
      | true => have := (h.returned hr).1; simp [hev] at this
    refine ⟨?_, ?_, h.sent_eq, h.owed_eq, h.exited_deferred, ?_⟩
    · rcases h.producer with ⟨r, h1, h2, h3, h4⟩ | ⟨j, r, h1, _⟩ | ⟨h1, _⟩
      · cases r with
        | nil => simp [hev, producerTrace] at h1
        | cons j r =>
          simp only [hev, producerTrace, List.cons.injEq, true_and] at h1
          exact Or.inr (Or.inl ⟨j, r, h1, h2, by simp [h3], h4⟩)
      · simp [hev] at h1
      · simp [hev] at h1
    · have := h.wg_eq; simp only [Nat.cast_add, Nat.cast_one]; omega
    · intro hr; simp [hret] at hr
  · -- close(jobs)
    rename_i rest hev
    split at hs
    · simp at hs
    simp only [Option.some.injEq] at hs
    subst hs
    have hret : s.waitReturned = false := by
      cases hr : s.waitReturned with
      | false => rfl
      | true => have := (h.returned hr).1; simp [hev] at this
    refine ⟨?_, h.wg_eq, h.sent_eq, h.owed_eq, h.exited_deferred, ?_⟩
    · rcases h.producer with ⟨r, h1, h2, h3, h4⟩ | ⟨j, r, h1, _⟩ | ⟨h1, _⟩
      · cases r with
        | nil =>
          simp only [hev, producerTrace, List.cons.injEq, true_and] at h1
          exact Or.inr (Or.inr ⟨h1, by simpa using h2, h3, rfl⟩)
        | cons j r => simp [hev, producerTrace] at h1
      · simp [hev] at h1
      · simp [hev] at h1
    · intro hr; simp [hret] at hr
  · simp at hs
  · -- wg.Wait() returns
    rename_i hev
    split at hs
    swap
    · simp at hs
    rename_i hw
    simp only [Option.some.injEq] at hs
    subst hs
    refine ⟨?_, h.wg_eq, h.sent_eq, h.owed_eq, h.exited_deferred, ?_⟩
    · simpa [ProducerAt] using h.producer
    · intro _; exact ⟨hev, hw.1⟩

theorem exited_deferred_set {ws : List Worker} (h : ∀ w ∈ ws, w.pc = .exited → w.deferred = 0)
    (i : Nat) (w' : Worker) (hw' : w'.pc = .exited → w'.deferred = 0) :
    ∀ w ∈ ws.set i w', w.pc = .exited → w.deferred = 0 := by
  intro w hw
  rcases List.mem_or_eq_of_mem_set hw with hw | rfl
  · exact h w hw
  · exact hw'

theorem waitReturned_false_of_events {jobs : List Job} {s : PipelineState} (h : Inv jobs s)
    (hev : s.events ≠ []) : s.waitReturned = false := by
  cases hr : s.waitReturned with
  | false => rfl
  | true => exact absurd (h.returned hr).1 hev

theorem inv_handoff {jobs : List Job} {s s' : PipelineState} (h : Inv jobs s) (i : Nat)
    (hs : step (.handoff i) s = some s') : Inv jobs s' := by
  by_cases hc : s.crashed = true
  · simp [step, hc] at hs
  simp only [step, hc, Bool.false_eq_true, if_false] at hs
  split at hs
  swap
  · simp at hs
  rename_i job rest w hev hw
  split at hs
  swap
  · simp at hs
  rename_i hcond
  obtain ⟨hpc, hcl⟩ := hcond
  simp only [Option.some.injEq] at hs
  subst hs
  have hret := waitReturned_false_of_events h (by simp [hev])
  have hheld := sum_map_set held s.workers i w { w with pc := .working job } hw
  have howed := sum_map_set owed s.workers i w { w with pc := .working job } hw
  have e1 : held w = 0 := by simp [held, hpc]
  have e2 : held { w with pc := .working job } = {job} := by simp [held]
  have e3 : owed w = w.deferred := by simp [owed, hpc]
  have e4 : owed { w with pc := .working job } = w.deferred := by simp [owed]
  rw [e1, e2, add_zero] at hheld
  rw [e3, e4] at howed
  refine ⟨?_, h.wg_eq, ?_, ?_, ?_, ?_⟩
  · rcases h.producer with ⟨r, h1, _⟩ | ⟨j, r, h1, h2, h3, h4⟩ | ⟨h1, _⟩
    · cases r with
      | nil => simp [hev, producerTrace] at h1
      | cons j r => simp [hev, producerTrace] at h1
    · simp only [hev, List.cons.injEq, Event.send.injEq] at h1
      obtain ⟨rfl, h1⟩ := h1
      exact Or.inl ⟨r, h1, by simpa using h2, by simp [h3], h4⟩
    · simp [hev] at h1
  · have := h.sent_eq
    simp only [PipelineState.insertedRows] at this ⊢
    rw [hheld, ← add_assoc, ← this]
    simp only [← Multiset.coe_singleton, Multiset.coe_add]
  · have := h.owed_eq
    dsimp only
    omega
  · exact exited_deferred_set h.exited_deferred i _ (by simp)
  · intro hr; simp [hret] at hr

theorem inv_insert {jobs : List Job} {s : PipelineState} (h : Inv jobs s) (i : Nat) (w : Worker)
    (job : Job) (stmt : Stmt) (c : Bool) (hw : s.workers[i]? = some w)
    (hpc : w.pc = .working job) (hargs : stmt.args = job) :
    Inv jobs
      { s with inserted := s.inserted ++ [stmt], crashed := c,
               workers := s.workers.set i { w with pc := .afterJob } } := by
  have hheld := sum_map_set held s.workers i w { w with pc := .afterJob } hw
  have howed := sum_map_set owed s.workers i w { w with pc := .afterJob } hw
  have e1 : held w = {job} := by simp [held, hpc]
  have e2 : held { w with pc := .afterJob } = 0 := by simp [held]
  have e3 : owed w = w.deferred := by simp [owed, hpc]
  have e4 : owed { w with pc := .afterJob } = w.deferred + 1 := by simp [owed]
  rw [e1, e2, add_zero] at hheld
  rw [e3, e4] at howed
  refine ⟨?_, h.wg_eq, ?_, ?_, ?_, h.returned⟩
  · simpa [ProducerAt] using h.producer
  · have := h.sent_eq
    simp only [PipelineState.insertedRows] at this ⊢
    rw [this, ← hheld]
    simp only [List.map_append, List.map_cons, List.map_nil, hargs, ← Multiset.coe_add,
      ← Multiset.coe_singleton]
    abel
  · have := h.owed_eq
    simp only [List.length_append, List.length_singleton]
    omega
  · exact exited_deferred_set h.exited_deferred i _ (by simp)

theorem inv_attempt {jobs : List Job} {s s' : PipelineState} (h : Inv jobs s) (i : Nat)
    (o : AttemptOutcome) (hs : step (.attempt i o) s = some s') : Inv jobs s' := by
  by_cases hc : s.crashed = true
  · simp [step, hc] at hs
  simp only [step, hc, Bool.false_eq_true, if_false] at hs
  split at hs
  swap
  · simp at hs
  rename_i w hw
  split at hs
  swap
  · simp at hs
  rename_i job hpc
  obtain ⟨stmt, hstmt, hargs⟩ := insertStmt_args job
  cases o with
  | connPanic =>
    simp only [doTheJob, Option.some.injEq] at hs
    subst hs; exact h
  | execError =>
    simp only [doTheJob, Option.some.injEq] at hs
    subst hs
    exact ⟨by simpa [ProducerAt] using h.producer, h.wg_eq, h.sent_eq, h.owed_eq,
      h.exited_deferred, h.returned⟩
  | closeError =>
    simp only [doTheJob, hstmt, Option.map_some', Option.some.injEq] at hs
    subst hs; exact inv_insert h i w job stmt true hw hpc hargs
  | ok =>
    simp only [doTheJob, hstmt, Option.map_some', Option.some.injEq] at hs
    subst hs
    exact inv_insert h i w job stmt s.crashed hw hpc hargs

theorem inv_local {jobs : List Job} {s : PipelineState} (h : Inv jobs s) (i : Nat)
    (w w' : Worker) (hw : s.workers[i]? = some w) (hheld : held w' = held w)
    (howed : owed w' = owed w) (hex : w'.pc = .exited → w'.deferred = 0) :
    Inv jobs { s with workers := s.workers.set i w' } := by
  have h1 := sum_map_set held s.workers i w w' hw
  have h2 := sum_map_set owed s.workers i w w' hw
  rw [hheld] at h1
  rw [howed] at h2
  refine ⟨?_, h.wg_eq, ?_, ?_, ?_, h.returned⟩
  · simpa [ProducerAt] using h.producer
  · have := h.sent_eq
    simp only [PipelineState.insertedRows] at this ⊢
    rw [this, add_right_cancel h1]
  · have := h.owed_eq
    dsimp only
    omega
  · exact exited_deferred_set h.exited_deferred i _ hex

theorem inv_worker {jobs : List Job} {s s' : PipelineState} (h : Inv jobs s) (i : Nat)
    (hs : step (.worker i) s = some s') : Inv jobs s' := by
  by_cases hc : s.crashed = true
  · simp [step, hc] at hs
  simp only [step, hc, Bool.false_eq_true, if_false] at hs
  split at hs
  swap
  · simp at hs
  rename_i w hw
  unfold workerStep at hs
  split at hs
  · -- the receive sees the closed queue
    rename_i hpc
    split at hs
    swap
    · simp at hs
    simp only [Option.some.injEq] at hs
    subst hs
    exact inv_local h i w _ hw (by simp [held, hpc]) (by simp [owed, hpc]) (by simp)
  · simp at hs
  · -- defer wg.Done(); counter++
    rename_i hpc
    simp only [Option.some.injEq] at hs
    subst hs
    exact inv_local h i w _ hw (by simp [held, hpc]) (by simp [owed, hpc]) (by simp)
  · rename_i hpc
    split at hs
    · -- the goroutine returns
      rename_i hd
      simp only [Option.some.injEq] at hs
      subst hs
      exact inv_local h i w _ hw (by simp [held, hpc]) (by simp [owed, hpc, hd]) (by simp [hd])
    · -- a deferred wg.Done() runs
      rename_i hd
      simp only [Option.some.injEq] at hs
      subst hs
      have h1 := sum_map_set held s.workers i w { w with deferred := w.deferred - 1 } hw
      have h2 := sum_map_set owed s.workers i w { w with deferred := w.deferred - 1 } hw
      have e1 : held { w with deferred := w.deferred - 1 } = held w := by simp [held]
      have e3 : owed w = w.deferred := by simp [owed, hpc]
      have e4 : owed { w with deferred := w.deferred - 1 } = w.deferred - 1 := by simp [owed, hpc]
      rw [e1] at h1
      rw [e3, e4] at h2
      have hmem := owed_le_sum s.workers w (mem_of_getElem? hw)
      rw [e3] at hmem
      have hcard := card_sent h
      have hadds := adds_ge_sent h
      have howed := h.owed_eq
      have hwg := h.wg_eq
      refine ⟨?_, ?_, ?_, ?_, ?_, ?_⟩
      · simpa [ProducerAt] using h.producer
      · simp only [Nat.cast_add, Nat.cast_one]; omega
      · have := h.sent_eq
        simp only [PipelineState.insertedRows] at this ⊢
        rw [this, add_right_cancel h1]
      · dsimp only
        omega
      · exact exited_deferred_set h.exited_deferred i _ (by simp [hpc])
      · intro hr
        have := h.returned hr
        omega
  · simp at hs

/-- Every step keeps the invariant. -/
theorem inv_step {jobs : List Job} {s s' : PipelineState} (h : Inv jobs s) (a : Action)
    (hs : step a s = some s') : Inv jobs s' := by
  cases a with
  | spawn =>
    by_cases hc : s.crashed = true
    · simp [step, hc] at hs
    simp only [step, hc, Bool.false_eq_true, if_false] at hs
    split at hs
    · simp at hs
    · rename_i workerIndex rest _
      simp only [Option.some.injEq] at hs
      subst hs
      have := inv_spawn h workerIndex rest
      simpa [hc] using this
  | produce => exact inv_produce h hs
  | handoff i => exact inv_handoff h i hs
  | attempt i o => exact inv_attempt h i o hs
  | worker i => exact inv_worker h i hs

/-- Every run keeps the invariant. -/
theorem inv_run {jobs : List Job} (sched : List Action) :
    ∀ {s s' : PipelineState}, Inv jobs s → run sched s = some s' → Inv jobs s' := by
  induction sched with
  | nil =>
    intro s s' h hs
    simp only [run, Option.some.injEq] at hs
    subst hs; exact h
  | cons a rest ih =>
    intro s s' h hs
    simp only [run] at hs
    cases hstep : step a s with
    | none => simp [hstep] at hs
    | some s1 =>
      rw [hstep] at hs
      exact ih (inv_step h a hstep) hs

/-- The state `startPipeline` sets up, for a reader that yields `rows`. -/
theorem startPipeline_eq (totalWorker : Int) {r : Reader} {rows : List Row} {e : ReadError}
    (h : Reads r rows e) :
    startPipeline totalWorker r = some
      { events := producerTrace rows.tail,
        spawns := (List.range (totalWorker + 1).toNat).map (fun (k : Nat) => (k : Int)),
        workers := [], closed := false, wg := 0, adds := 0, dones := 0, sent := [],
        inserted := [], waitReturned := false, crashed := false } := by
  simp [startPipeline, readCsv_trace h, dispatchWorkers_eq]

/-- The invariant holds when the run starts. -/
theorem inv_start (totalWorker : Int) {r : Reader} {rows : List Row} {e : ReadError}
    (h : Reads r rows e) {s : PipelineState} (hs : startPipeline totalWorker r = some s) :
    Inv rows.tail s := by
  rw [startPipeline_eq totalWorker h, Option.some.injEq] at hs
  subst hs
  refine ⟨Or.inl ⟨rows.tail, rfl, by simp, rfl, rfl⟩, by simp, ?_, by simp, by simp, by simp⟩
  simp [PipelineState.insertedRows]

/-- The invariant holds in every state of every run. -/
theorem inv_reachable (totalWorker : Int) {r : Reader} {rows : List Row} {e : ReadError}
    (h : Reads r rows e) (sched : List Action) {s : PipelineState}
    (hs : (startPipeline totalWorker r).bind (run sched) = some s) : Inv rows.tail s := by
  cases h0 : startPipeline totalWorker r with
  | none => simp [h0] at hs
  | some s0 =>
    rw [h0] at hs
    exact inv_run sched (inv_start totalWorker h h0) hs

/-! ## What the invariant gives -/

/-- The jobs handed over so far are the first of the jobs to submit, in order. -/
theorem Inv.sent_initial {jobs : List Job} {s : PipelineState} (h : Inv jobs s) :
    s.sent <+: jobs := by
  rcases h.producer with ⟨r, _, h2, _⟩ | ⟨j, r, _, h2, _⟩ | ⟨_, h2, _⟩
  · exact ⟨r, h2.symm⟩
  · exact ⟨j :: r, h2.symm⟩
  · exact ⟨[], by simp [h2]⟩

/-- Once the producer has returned, all the jobs have been handed over. -/
theorem Inv.sent_all {jobs : List Job} {s : PipelineState} (h : Inv jobs s)
    (hev : s.events = []) : s.sent = jobs ∧ s.adds = jobs.length ∧ s.closed = true := by
  rcases h.producer with ⟨r, h1, _⟩ | ⟨j, r, h1, _⟩ | ⟨_, h2, h3, h4⟩
  · cases r <;> simp [hev, producerTrace] at h1
  · simp [hev] at h1
  · exact ⟨h2.symm, by rw [h3, h2], h4⟩

/-- The rows inserted are among the jobs handed over. -/
theorem Inv.inserted_le {jobs : List Job} {s : PipelineState} (h : Inv jobs s) :
    (s.insertedRows : Multiset Job) ≤ (jobs : Multiset Job) := by
  have h1 : (s.insertedRows : Multiset Job) ≤ (s.sent : Multiset Job) := by
    rw [h.sent_eq]; exact Multiset.le_add_right _ _
  obtain ⟨t, ht⟩ := h.sent_initial
  have h2 : (s.sent : Multiset Job) ≤ (jobs : Multiset Job) := by
    rw [← ht, ← Multiset.coe_add]; exact Multiset.le_add_right _ _
  exact le_trans h1 h2

/-- The counts never exceed the number of jobs. -/
theorem Inv.counts_le {jobs : List Job} {s : PipelineState} (h : Inv jobs s) :
    s.adds ≤ jobs.length ∧ s.dones ≤ s.adds ∧ s.inserted.length ≤ jobs.length := by
  have h1 := card_sent h
  have h2 := adds_ge_sent h
  have h3 := h.owed_eq
  have h4 : s.adds ≤ jobs.length := by
    rcases h.producer with ⟨r, _, e, a, _⟩ | ⟨j, r, _, e, a, _⟩ | ⟨_, e, a, _⟩ <;>
      · have := congrArg List.length e
        simp at this
        omega
  omega

/-- When the producer has returned and every worker has returned, every job
has been inserted once and every `wg.Add(1)` has met its `wg.Done()`. -/
theorem Inv.quiet {jobs : List Job} {s : PipelineState} (h : Inv jobs s)
    (hev : s.events = []) (hws : ∀ w ∈ s.workers, w.pc = .exited) :
    s.adds = jobs.length ∧ s.dones = jobs.length ∧ s.wg = 0 ∧
      (s.insertedRows : Multiset Job) = (jobs : Multiset Job) := by
  obtain ⟨hsent, hadds, _⟩ := h.sent_all hev
  have hheld : (s.workers.map held).sum = 0 :=
    sum_map_eq_zero held s.workers (fun w hw => by simp [held, hws w hw])
  have howed : (s.workers.map owed).sum = 0 :=
    sum_map_eq_zero owed s.workers
      (fun w hw => by simp [owed, hws w hw, h.exited_deferred w hw (hws w hw)])
  have h1 := h.sent_eq
  rw [hheld, add_zero, hsent] at h1
  have h2 := h.owed_eq
  rw [howed, add_zero] at h2
  have h3 : s.inserted.length = jobs.length := by
    have := congrArg Multiset.card h1
    simpa [PipelineState.insertedRows] using this.symm
  have h4 := h.wg_eq
  exact ⟨hadds, by omega, by omega, h1.symm⟩

/-- When `wg.Wait()` has returned, every job has been inserted once. -/
theorem Inv.after_wait {jobs : List Job} {s : PipelineState} (h : Inv jobs s)
    (hr : s.waitReturned = true) :
    s.sent = jobs ∧ (s.insertedRows : Multiset Job) = (jobs : Multiset Job) := by
  obtain ⟨hev, hwg⟩ := h.returned hr
  obtain ⟨hsent, hadds, _⟩ := h.sent_all hev
  have h1 := card_sent h
  have h2 := h.owed_eq
  have h3 := h.wg_eq
  have h4 : Multiset.card ((s.workers.map held).sum) = 0 := by
    have := congrArg List.length hsent
    omega
  have h5 := h.sent_eq
  rw [Multiset.card_eq_zero.mp h4, add_zero, hsent] at h5
  exact ⟨hsent, h5.symm⟩

theorem complete_iff (s : PipelineState) :
    s.complete = true ↔ s.events = [] ∧ s.spawns = [] ∧ ∀ w ∈ s.workers, w.pc = .exited := by
  simp [PipelineState.complete, List.isEmpty_iff, and_assoc]

/-! ## A complete run exists -/

theorem run_append (a b : List Action) (s : PipelineState) :
    run (a ++ b) s = (run a s).bind (run b) := by
  induction a generalizing s with
  | nil => simp [run]
  | cons x xs ih =>
    simp only [List.cons_append, run]
    cases step x s with
    | none => simp
    | some s1 => simp [ih]

/-- With one worker at its receive, the producer gets every job inserted and
closes the queue. -/
theorem serve_all (rest : List Job) :
    ∀ (s : PipelineState) (w : Worker), s.events = producerTrace rest → s.crashed = false →
      s.closed = false → s.workers = [w] → w.pc = .recv →
      ∃ sched s' w', run sched s = some s' ∧ s'.events = [] ∧ s'.crashed = false ∧
        s'.closed = true ∧ s'.workers = [w'] ∧ w'.pc = .recv ∧ s'.spawns = s.spawns ∧
        s'.waitReturned = s.waitReturned := by
  induction rest with
  | nil =>
    intro s w hev hc hcl hws hpc
    refine ⟨[.produce], { s with events := [], closed := true }, w, ?_, rfl, hc, rfl, hws, hpc,
      rfl, rfl⟩
    simp [run, step, hev, hc, hcl, producerTrace]
  | cons job rest ih =>
    intro s w hev hc hcl hws hpc
    obtain ⟨stmt, hstmt, -⟩ := insertStmt_args job
    let w1 : Worker := { w with deferred := w.deferred + 1, counter := w.counter + 1, pc := .recv }
    let s1 : PipelineState :=
      { s with events := producerTrace rest, wg := s.wg + 1, adds := s.adds + 1,
               sent := s.sent ++ [job], inserted := s.inserted ++ [stmt], workers := [w1] }
    have hrun : run [.produce, .handoff 0, .attempt 0 .ok, .worker 0] s = some s1 := by
      simp [run, step, doTheJob, workerStep, hev, hc, hcl, hws, hpc, producerTrace, hstmt,
        s1, w1]
    obtain ⟨sched, s', w', h1, h2, h3, h4, h5, h6, h7, h8⟩ :=
      ih s1 w1 rfl hc hcl rfl rfl
    refine ⟨[.produce, .handoff 0, .attempt 0 .ok, .worker 0] ++ sched, s', w', ?_, h2, h3, h4,
      h5, h6, h7, h8⟩
    rw [run_append, hrun]
    exact h1

/-- A worker that returns runs all its deferred calls; the counter stays at
or above 0, so none of them panics. -/
theorem drain_deferred {jobs : List Job} (d : Nat) :
    ∀ (s : PipelineState) (ws : List Worker) (w : Worker), Inv jobs s → s.crashed = false →
      s.workers = ws ++ [w] → w.pc = .exiting → w.deferred = d →
      ∃ sched s' w', run sched s = some s' ∧ s'.events = s.events ∧ s'.crashed = false ∧
        s'.closed = s.closed ∧ s'.workers = ws ++ [w'] ∧ w'.pc = .exited ∧
        s'.spawns = s.spawns ∧ s'.waitReturned = s.waitReturned := by
  induction d with
  | zero =>
    intro s ws w _ hc hws hpc hd
    refine ⟨[.worker ws.length], { s with workers := ws ++ [{ w with pc := .exited }] }, _, ?_,
      rfl, hc, rfl, rfl, rfl, rfl, rfl⟩
    simp [run, step, workerStep, hc, hws, hpc, hd]
  | succ d ih =>
    intro s ws w hinv hc hws hpc hd
    let w1 : Worker := { w with deferred := d }
    let s1 : PipelineState :=
      { s with wg := s.wg - 1, dones := s.dones + 1, crashed := decide (s.wg - 1 < 0),
               workers := ws ++ [w1] }
    have hstep : step (.worker ws.length) s = some s1 := by
      simp [step, workerStep, hc, hws, hpc, hd, s1, w1]
    have hinv1 : Inv jobs s1 := inv_step hinv _ hstep
    have hc1 : s1.crashed = false := by
      have := hinv1.wg_nonneg
      simp only [s1] at this ⊢
      simpa using this
    obtain ⟨sched, s', w', h1, h2, h3, h4, h5, h6, h7, h8⟩ :=
      ih s1 ws w1 hinv1 hc1 rfl hpc rfl
    refine ⟨.worker ws.length :: sched, s', w', ?_, h2, h3, h4, h5, h6, h7, h8⟩
    simp only [run, hstep, Option.some_bind]
    exact h1

/-- After the close, each goroutine still to be started sees the closed queue
and returns. -/
theorem spawn_rest {jobs : List Job} (sp : List Int) :
    ∀ (s : PipelineState), Inv jobs s → s.spawns = sp → s.crashed = false → s.closed = true →
      s.events = [] → (∀ w ∈ s.workers, w.pc = .exited) →
      ∃ sched s', run sched s = some s' ∧ s'.events = [] ∧ s'.crashed = false ∧
        s'.spawns = [] ∧ (∀ w ∈ s'.workers, w.pc = .exited) ∧
        s'.waitReturned = s.waitReturned := by
  induction sp with
  | nil =>
    intro s _ hsp hc _ hev hws
    exact ⟨[], s, rfl, hev, hc, hsp, hws, rfl⟩
  | cons workerIndex sp ih =>
    intro s hinv hsp hc hcl hev hws
    let s1 : PipelineState :=
      { s with spawns := sp, workers := s.workers ++ [{ newWorker workerIndex with pc := .exiting }] }
    have hrun : run [.spawn, .worker s.workers.length] s = some s1 := by
      simp [run, step, workerStep, hc, hsp, hcl, newWorker, s1]
    have hinv1 : Inv jobs s1 := inv_run _ hinv hrun
    obtain ⟨sched2, s2, w2, h1, h2, h3, h4, h5, h6, h7, h8⟩ :=
      drain_deferred 0 s1 s.workers _ hinv1 hc rfl rfl rfl
    have hinv2 : Inv jobs s2 := inv_run _ hinv1 h1
    have hws2 : ∀ w ∈ s2.workers, w.pc = .exited := by
      intro w hw
      rw [h5] at hw
      rcases List.mem_append.mp hw with hw | hw
      · exact hws w hw
      · simp at hw; rw [hw]; exact h6
    obtain ⟨sched3, s3, g1, g2, g3, g4, g5, g6⟩ :=
      ih s2 hinv2 h7 h3 (by rw [h4]; exact hcl) (by rw [h2]; exact hev) hws2
    refine ⟨[.spawn, .worker s.workers.length] ++ (sched2 ++ sched3), s3, ?_, g2, g3, g4, g5,
      by rw [g6, h8]⟩
    rw [run_append, hrun, Option.some_bind, run_append, h1, Option.some_bind]
    exact g1

/-- With at least one goroutine started (`0 ≤ totalWorker`), some schedule
takes the run to its end: `wg.Wait()` returns, every goroutine has returned and
nothing has crashed. -/
theorem complete_run_exists (totalWorker : Int) (htw : 0 ≤ totalWorker) {r : Reader}
    {rows : List Row} {e : ReadError} (h : Reads r rows e) :
    ∃ sched s, (startPipeline totalWorker r).bind (run sched) = some s ∧
      s.complete = true ∧ s.waitReturned = true ∧ s.crashed = false := by
  obtain ⟨n, hn⟩ : ∃ n, (totalWorker + 1).toNat = n + 1 :=
    ⟨(totalWorker + 1).toNat - 1, by omega⟩
  have hstart := startPipeline_eq totalWorker h
  rw [hn, List.range_succ_eq_map] at hstart
  simp only [List.map_cons, List.map_map] at hstart
  generalize hsp : List.map ((fun (k : Nat) => (k : Int)) ∘ Nat.succ) (List.range n) = sp
    at hstart
  generalize hs0 :
    ({ events := producerTrace rows.tail, spawns := ((0 : Nat) : Int) :: sp,
       workers := [], closed := false, wg := 0, adds := 0, dones := 0, sent := [],
       inserted := [], waitReturned := false, crashed := false } : PipelineState) = s0 at hstart
  have hinv0 : Inv rows.tail s0 := inv_start totalWorker h hstart
  -- the first goroutine starts
  let s1 : PipelineState := { s0 with spawns := sp, workers := [newWorker 0] }
  have hrun1 : run [.spawn] s0 = some s1 := by
    subst hs0; simp [run, step, s1]
  have hinv1 : Inv rows.tail s1 := inv_run _ hinv0 hrun1
  -- it takes every job
  obtain ⟨sched2, s2, w2, hrun2, hev2, hc2, hcl2, hws2, hpc2, hsp2, hwr2⟩ :=
    serve_all rows.tail s1 (newWorker 0) (by subst hs0; rfl) (by subst hs0; rfl)
      (by subst hs0; rfl) rfl rfl
  have hinv2 : Inv rows.tail s2 := inv_run _ hinv1 hrun2
  -- it sees the closed queue and returns
  let s3 : PipelineState := { s2 with workers := [] ++ [{ w2 with pc := .exiting }] }
  have hrun3 : run [.worker 0] s2 = some s3 := by
    simp [run, step, workerStep, hc2, hcl2, hws2, hpc2, s3]
  have hinv3 : Inv rows.tail s3 := inv_run _ hinv2 hrun3
  obtain ⟨sched4, s4, w4, hrun4, hev4, hc4, hcl4, hws4, hpc4, hsp4, hwr4⟩ :=
    drain_deferred w2.deferred s3 [] _ hinv3 hc2 rfl rfl rfl
  have hinv4 : Inv rows.tail s4 := inv_run _ hinv3 hrun4
  -- the other goroutines start and return
  obtain ⟨sched5, s5, hrun5, hev5, hc5, hsp5, hws5, hwr5⟩ :=
    spawn_rest sp s4 hinv4 (by rw [hsp4, hsp2]) hc4 (by rw [hcl4]; exact hcl2)
      (by rw [hev4]; exact hev2) (by intro w hw; rw [hws4] at hw; simp at hw; rw [hw]; exact hpc4)
  have hinv5 : Inv rows.tail s5 := inv_run _ hinv4 hrun5
  -- wg.Wait() returns
  have hwg5 : s5.wg = 0 := (hinv5.quiet hev5 hws5).2.2.1
  have hwr : s5.waitReturned = false := by
    rw [hwr5, hwr4, hwr2]; subst hs0; rfl
  let s6 : PipelineState := { s5 with waitReturned := true }
  have hrun6 : run [.produce] s5 = some s6 := by
    simp [run, step, hc5, hev5, hwg5, hwr, s6]
  refine ⟨[.spawn] ++ (sched2 ++ ([.worker 0] ++ (sched4 ++ (sched5 ++ [.produce])))), s6, ?_,
    ?_, rfl, hc5⟩
  · rw [hstart, Option.some_bind, run_append, hrun1, Option.some_bind, run_append, hrun2,
      Option.some_bind, run_append, hrun3, Option.some_bind, run_append, hrun4,
      Option.some_bind, run_append, hrun5, Option.some_bind, hrun6]
  · exact (complete_iff s6).mpr ⟨hev5, hsp5, hws5⟩

/-! ## The field count of the records read -/

/-- A reader that expects `n > 0` fields returns records of `n` fields only. -/
theorem reads_arity {r : Reader} {rows : List Row} {e : ReadError} (h : Reads r rows e) :
    ∀ n : Nat, 0 < n → r.FieldsPerRecord = (n : Int) → ∀ row ∈ rows, row.length = n := by
  induction h with
  | stop _ => intro n _ _ row hrow; simp at hrow
  | @next r rows e herr _ ih =>
    intro n hn hfpr row hrow
    obtain ⟨fpr, pending⟩ := r
    simp only at hfpr
    subst hfpr
    cases pending with
    | nil => simp [Reader.Read] at herr
    | cons x rest =>
      cases x with
      | quoteError => simp [Reader.Read] at herr
      | fields fs =>
        have hpos : (0 : Int) < (n : Int) := by exact_mod_cast hn
        by_cases hlen : (fs.length : Int) = (n : Int)
        · simp only [Reader.Read, hpos, if_true, hlen, ne_eq, not_true_eq_false, if_false,
            List.mem_cons] at hrow ih
          rcases hrow with rfl | hrow
          · exact_mod_cast hlen
          · exact ih n hn rfl row hrow
        · simp [Reader.Read, hpos, hlen] at herr

/-- A new reader takes its field count from the first record: every record it
returns after a first record of at least one field has as many fields. -/
theorem reads_arity_new {input : List RawRecord} {hdr : Row} {rest : List Row} {e : ReadError}
    (h : Reads (NewReader input) (hdr :: rest) e) (hpos : 0 < hdr.length) :
    ∀ row ∈ rest, row.length = hdr.length := by
  cases input with
  | nil => cases h with | next herr _ => simp [NewReader, Reader.Read] at herr
  | cons x xs =>
    cases x with
    | quoteError => cases h with | next herr _ => simp [NewReader, Reader.Read] at herr
    | fields fs =>
      generalize hr : NewReader (RawRecord.fields fs :: xs) = r at h
      cases h with
      | next herr hrest =>
        subst hr
        simp only [NewReader, Reader.Read, lt_self_iff_false, if_false, if_true] at hrest hpos ⊢
        exact reads_arity hrest fs.length hpos rfl

/-! ## The pieces of a file name -/

theorem splitPieces_fst (sep : Char) (l : List Char) :
    (splitPieces sep l).1 = l.takeWhile (fun c => decide (c ≠ sep)) := by
  induction l with
  | nil => rfl
  | cons c cs ih =>
    by_cases h : c = sep
    · simp [splitPieces, h]
    · simp [splitPieces, h, ih]

theorem splitPieces_snd_nil (sep : Char) (l : List Char) (h : sep ∉ l) :
    (splitPieces sep l).2 = [] := by
  induction l with
  | nil => rfl
  | cons c cs ih =>
    simp only [List.mem_cons, not_or] at h
    have hc : ¬ c = sep := fun hc => h.1 hc.symm
    simp [splitPieces, hc, ih h.2]

theorem splitPieces_snd_cons (sep : Char) (l : List Char) (h : sep ∈ l) :
    ∃ t, (splitPieces sep l).2 =
      ((l.dropWhile (fun c => decide (c ≠ sep))).drop 1).takeWhile (fun c => decide (c ≠ sep))
        :: t := by
  induction l with
  | nil => simp at h
  | cons c cs ih =>
    by_cases hc : c = sep
    · exact ⟨(splitPieces sep cs).2, by simp [splitPieces, hc, splitPieces_fst]⟩
    · have hmem : sep ∈ cs := by
        rcases List.mem_cons.mp h with h | h
        · exact absurd h.symm hc
        · exact h
      obtain ⟨t, ht⟩ := ih hmem
      exact ⟨t, by simp [splitPieces, hc, ht]⟩

/-! ## Runs that submit no job, and the statements of a run -/

/-- When nothing has been handed over, no worker holds a job: no iteration of
`doTheJob` can run. -/
theorem no_attempt_of_sent_nil {jobs : List Job} {s : PipelineState} (h : Inv jobs s)
    (hsent : s.sent = []) :
    s.inserted = [] ∧ ∀ (i : Nat) (o : AttemptOutcome), step (.attempt i o) s = none := by
  have h1 := h.sent_eq
  rw [hsent] at h1
  have h2 : (s.insertedRows : Multiset Job) = 0 ∧ (s.workers.map held).sum = 0 := by
    have := h1.symm
    simpa [add_eq_zero] using this
  have hins : s.inserted = [] := by
    have := h2.1
    simpa [PipelineState.insertedRows] using this
  refine ⟨hins, ?_⟩
  intro i o
  by_cases hc : s.crashed = true
  · simp [step, hc]
  simp only [step, hc, Bool.false_eq_true, if_false]
  cases hw : s.workers[i]? with
  | none => rfl
  | some w =>
    have hmem := mem_of_getElem? hw
    have hz : held w = 0 := by
      have := List.sum_eq_zero_iff.mp h2.2 (held w) (List.mem_map_of_mem held hmem)
      exact this
    cases hpc : w.pc with
    | working job => simp [held, hpc] at hz
    | recv => simp [hpc]
    | afterJob => simp [hpc]
    | exiting => simp [hpc]
    | exited => simp [hpc]

theorem stmtsOk_step {s s' : PipelineState} (a : Action) (h : StmtsOk s)
    (hs : step a s = some s') : StmtsOk s' := by
  have key : s'.inserted = s.inserted ∨
      ∃ job stmt, insertStmt job = some stmt ∧ s'.inserted = s.inserted ++ [stmt] := by
    by_cases hc : s.crashed = true
    · simp [step, hc] at hs
    cases a with
    | spawn =>
      simp only [step, hc, Bool.false_eq_true, if_false] at hs
      split at hs
      · simp at hs
      · simp only [Option.some.injEq] at hs; subst hs; exact Or.inl rfl
    | produce =>
      simp only [step, hc, Bool.false_eq_true, if_false] at hs
      split at hs
      · simp only [Option.some.injEq] at hs; subst hs; exact Or.inl rfl
      · split at hs
        · simp at hs
        · simp only [Option.some.injEq] at hs; subst hs; exact Or.inl rfl
      · simp at hs
      · split at hs
        · simp only [Option.some.injEq] at hs; subst hs; exact Or.inl rfl
        · simp at hs
    | handoff i =>
      simp only [step, hc, Bool.false_eq_true, if_false] at hs
      split at hs
      · split at hs
        · simp only [Option.some.injEq] at hs; subst hs; exact Or.inl rfl
        · simp at hs
      · simp at hs
    | attempt i o =>
      simp only [step, hc, Bool.false_eq_true, if_false] at hs
      split at hs
      · split at hs
        · rename_i job _
          obtain ⟨stmt, hstmt, -⟩ := insertStmt_args job
          cases o with
          | connPanic =>
            simp only [doTheJob, Option.some.injEq] at hs; subst hs; exact Or.inl rfl
          | execError =>
            simp only [doTheJob, Option.some.injEq] at hs; subst hs; exact Or.inl rfl
          | closeError =>
            simp only [doTheJob, hstmt, Option.map_some', Option.some.injEq] at hs
            subst hs; exact Or.inr ⟨job, stmt, hstmt, rfl⟩
          | ok =>
            simp only [doTheJob, hstmt, Option.map_some', Option.some.injEq] at hs
            subst hs; exact Or.inr ⟨job, stmt, hstmt, rfl⟩
        · simp at hs
      · simp at hs
    | worker i =>
      simp only [step, hc, Bool.false_eq_true, if_false] at hs
      split at hs
      · unfold workerStep at hs
        split at hs
        · split at hs
          · simp only [Option.some.injEq] at hs; subst hs; exact Or.inl rfl
          · simp at hs
        · simp at hs
        · simp only [Option.some.injEq] at hs; subst hs; exact Or.inl rfl
        · split at hs <;>
            · simp only [Option.some.injEq] at hs; subst hs; exact Or.inl rfl
        · simp at hs
      · simp at hs
  intro stmt hmem
  rcases key with key | ⟨job, st, hst, key⟩
  · rw [key] at hmem; exact h stmt hmem
  · rw [key] at hmem
    rcases List.mem_append.mp hmem with hmem | hmem
    · exact h stmt hmem
    · simp only [List.mem_singleton] at hmem
      subst hmem
      have hargs : stmt.args = job := by
        obtain ⟨st2, h2, h3⟩ := insertStmt_args job
        rw [hst] at h2
        cases h2
        exact h3
      rw [hargs]; exact hst

theorem stmtsOk_run (sched : List Action) :
    ∀ {s s' : PipelineState}, StmtsOk s → run sched s = some s' → StmtsOk s' := by
  induction sched with
  | nil =>
    intro s s' h hs
    simp only [run, Option.some.injEq] at hs
    subst hs; exact h
  | cons a rest ih =>
    intro s s' h hs
    simp only [run] at hs
    cases hstep : step a s with
    | none => simp [hstep] at hs
    | some s1 =>
      rw [hstep] at hs
      exact ih (stmtsOk_step a h hstep) hs

/-- Every statement a run executes is the insert statement for its arguments. -/
theorem stmtsOk_reachable (totalWorker : Int) (r : Reader) (sched : List Action)
    {s : PipelineState} (hs : (startPipeline totalWorker r).bind (run sched) = some s) :
    StmtsOk s := by
  cases h0 : startPipeline totalWorker r with
  | none => simp [h0] at hs
  | some s0 =>
    rw [h0] at hs
    refine stmtsOk_run sched ?_ hs
    obtain ⟨rows, e, hr⟩ := reads_total r
    rw [startPipeline_eq totalWorker hr, Option.some.injEq] at h0
    subst h0
    intro stmt hmem
    simp at hmem

/-! ## The claims -/

theorem reads_cons {r : Reader} {row : Row} {rows : List Row} {e : ReadError}
    (h1 : r.Read.1.err = none) (h2 : r.Read.1.record = row) (h3 : Reads r.Read.2 rows e) :
    Reads r (row :: rows) e := by
  subst h2
  exact Reads.next h1 h3

theorem reads_sampleStream :
    Reads (NewReader sampleStream) [sampleHeader, sampleRow1, sampleRow2] .EOF :=
  reads_cons rfl rfl (reads_cons rfl rfl (reads_cons rfl rfl (Reads.stop rfl)))

theorem reads_malformedStream :
    Reads (NewReader malformedStream) [sampleHeader, sampleRow1] .ErrFieldCount :=
  reads_cons rfl rfl (reads_cons rfl rfl (Reads.stop rfl))

theorem reads_threeColumnStream :
    Reads (NewReader threeColumnStream) [["a", "b", "c"], ["1", "2", "3"]] .EOF :=
  reads_cons rfl rfl (reads_cons rfl rfl (Reads.stop rfl))

/-- C1: when the reader returns the records `r0, r1, ..., rk` and then the end
of input, `readCsvFilePerLineThenSendToWorker` returns, and the jobs it sends
are exactly `r1, ..., rk` in that order, whatever `r0` is; in every state of
every run the jobs handed over are a prefix of `r1, ..., rk`, and all of them
once the producer has returned. -/
theorem C1_header_skipped_rows_in_order (r : Reader) (r0 : Row) (rest : List Row)
    (h : Reads r (r0 :: rest) .EOF) :
    (∃ events, readCsvFilePerLineThenSendToWorker r = some events ∧ sentJobs events = rest ∧
      events = producerTrace rest) ∧
    ∀ (totalWorker : Int) (sched : List Action) (s : PipelineState),
      (startPipeline totalWorker r).bind (run sched) = some s →
        s.sent <+: rest ∧ (s.events = [] → s.sent = rest) := by
  refine ⟨⟨producerTrace rest, readCsv_trace h, sentJobs_producerTrace rest, rfl⟩, ?_⟩
  intro totalWorker sched s hs
  have hinv : Inv rest s := inv_reachable totalWorker h sched hs
  exact ⟨hinv.sent_initial, fun hev => (hinv.sent_all hev).1⟩

/-- C1 at the sample stream: the header is skipped, the two data rows are sent in order. -/
theorem C1_header_skipped_witness :
    ∃ events, readCsvFilePerLineThenSendToWorker (NewReader sampleStream) = some events ∧
      sentJobs events = [sampleRow1, sampleRow2] ∧
      events = producerTrace [sampleRow1, sampleRow2] :=
  (C1_header_skipped_rows_in_order (NewReader sampleStream) sampleHeader [sampleRow1, sampleRow2]
    reads_sampleStream).1

/-- C2: `generateQuestionsMark(len(dataHeaders))` is twelve `"?"`; the statement
`doTheJob` hands to `ExecContext` for the job made from `row` has the twelve
column names in schema order next to twelve placeholders joined by commas, and
its arguments are the fields of `row`, in order and unchanged; every statement
a run executes has this text and a data row of the stream as its arguments. -/
theorem C2_insert_statement (row : Row) :
    dataHeaders.length = 12 ∧
    generateQuestionsMark (dataHeaders.length : Int) = some (List.replicate 12 "?") ∧
    insertStmt (rowOrdered row) = some
      { query := "insert into domain (GlobalRank,TldRank,Domain,TLD,RefSubNets,RefIPs,IDN_Domain,IDN_TLD,PrevGlobalRank,PrevTldRank,PrevRefSubNets,PrevRefIPs) values (?,?,?,?,?,?,?,?,?,?,?,?)",
        args := row } ∧
    (∀ query, insertQuery = some query →
      query = "insert into domain (" ++ stringsJoin dataHeaders "," ++ ") values (" ++
        stringsJoin (List.replicate dataHeaders.length "?") "," ++ ")" ∧
      query.data.count '?' = dataHeaders.length) ∧
    ∀ (totalWorker : Int) (r : Reader) (rows : List Row) (e : ReadError) (sched : List Action)
      (s : PipelineState), Reads r rows e →
      (startPipeline totalWorker r).bind (run sched) = some s →
      ∀ stmt ∈ s.inserted, insertStmt stmt.args = some stmt ∧ stmt.args ∈ rows.tail := by
  refine ⟨rfl, by decide, ?_, ?_, ?_⟩
  · simp [insertStmt, insertQuery_eq, rowOrdered_eq]
  · intro query hq
    rw [insertQuery_eq, Option.some.injEq] at hq
    subst hq
    exact ⟨by decide, by decide⟩
  · intro totalWorker r rows e sched s hr hs stmt hmem
    refine ⟨stmtsOk_reachable totalWorker r sched hs stmt hmem, ?_⟩
    have hle := (inv_reachable totalWorker hr sched hs).inserted_le
    have h1 : stmt.args ∈ (s.insertedRows : Multiset Job) := by
      simp only [PipelineState.insertedRows, Multiset.mem_coe]
      exact List.mem_map_of_mem Stmt.args hmem
    have := Multiset.mem_of_le hle h1
    simpa using this

/-- C3, as stated, fails: the third record of `malformedStream` has three
fields where the header has twelve, so `Read` returns `ErrFieldCount` there;
yet `uploadFile` returns `succeeded = true` after inserting the row of twelve
fields that precedes the malformed record, and under no schedule does it
return `succeeded = false`. -/
theorem C3_malformed_counterexample :
    (NewReader malformedStream).Read.2.Read.2.Read.1.err = some ReadError.ErrFieldCount ∧
    sampleRow1.length = dataHeaders.length ∧
    uploadFile (uploadOf malformedStream) oneRowSchedule =
      { outcome := .returned true "data-20240101000000.csv",
        inserted := [{ query := "insert into domain (GlobalRank,TldRank,Domain,TLD,RefSubNets,RefIPs,IDN_Domain,IDN_TLD,PrevGlobalRank,PrevTldRank,PrevRefSubNets,PrevRefIPs) values (?,?,?,?,?,?,?,?,?,?,?,?)",
                       args := ["1", "1", "google.com", "com", "494155", "3099703",
                                "google.com", "com", "1", "1", "493314", "3098386"] }] } ∧
    ∀ (sched : List Action) (fileName : String),
      (uploadFile (uploadOf malformedStream) sched).outcome ≠ .returned false fileName := by
  refine ⟨by decide, by decide, by decide, ?_⟩
  intro sched fileName
  have hname : storedFileName "data.csv" "20240101000000" = .ok "data-20240101000000.csv" := rfl
  simp only [uploadFile, uploadOf, hname, Bool.false_eq_true, if_false]
  cases (startPipeline totalWorker (NewReader malformedStream)).bind (run sched) with
  | none => simp
  | some s =>
    simp only
    split_ifs <;> simp

/-- C3, amended: when the reader returns the records `rows` and then an error
other than the end of input, the loop ends there and the queue is closed: the
jobs sent are exactly the records of `rows` after the header, in order, so no
record at or after the malformed one is sent.  In every state of every run
the rows inserted are among those records, every job handed over is either
inserted or held by the worker that received it, and once `wg.Wait()` has
returned the rows inserted are exactly those records.  The rows before the
malformed record are inserted: with at least one worker (`0 ≤ totalWorker`)
there is a run, every insert succeeding, in which `wg.Wait()` returns, every
goroutine has returned, nothing has crashed and the rows inserted are exactly
the records of `rows` after the header. -/
theorem C3_malformed_stops_reading (r : Reader) (rows : List Row) (e : ReadError)
    (h : Reads r rows e) (_he : e ≠ .EOF) :
    (∃ events, readCsvFilePerLineThenSendToWorker r = some events ∧
      sentJobs events = rows.tail ∧ events.getLast? = some Event.close) ∧
    (∀ (totalWorker : Int) (sched : List Action) (s : PipelineState),
      (startPipeline totalWorker r).bind (run sched) = some s →
        s.sent <+: rows.tail ∧
        (s.insertedRows : Multiset Row) ≤ (rows.tail : Multiset Row) ∧
        (s.sent : Multiset Row) = (s.insertedRows : Multiset Row) + (s.workers.map held).sum ∧
        (s.waitReturned = true →
          s.sent = rows.tail ∧
          (s.insertedRows : Multiset Row) = (rows.tail : Multiset Row))) ∧
    (∀ totalWorker : Int, 0 ≤ totalWorker →
      ∃ sched s, (startPipeline totalWorker r).bind (run sched) = some s ∧
        s.waitReturned = true ∧ s.complete = true ∧ s.crashed = false ∧
        s.sent = rows.tail ∧ s.inserted.length = rows.tail.length ∧
        (s.insertedRows : Multiset Row) = (rows.tail : Multiset Row)) := by
  refine ⟨⟨producerTrace rows.tail, readCsv_trace h, sentJobs_producerTrace _, ?_⟩, ?_, ?_⟩
  · generalize rows.tail = jobs
    induction jobs with
    | nil => rfl
    | cons j js ih =>
      cases js with
      | nil => rfl
      | cons k ks => simpa [producerTrace] using ih
  · intro totalWorker sched s hs
    have hinv : Inv rows.tail s := inv_reachable totalWorker h sched hs
    exact ⟨hinv.sent_initial, hinv.inserted_le, hinv.sent_eq, hinv.after_wait⟩
  · intro totalWorker htw
    obtain ⟨sched, s, hs, hc, hw, hcr⟩ := complete_run_exists totalWorker htw h
    have hinv : Inv rows.tail s := inv_reachable totalWorker h sched hs
    obtain ⟨h1, h2⟩ := hinv.after_wait hw
    refine ⟨sched, s, hs, hw, hc, hcr, h1, ?_, h2⟩
    have := congrArg Multiset.card h2
    simpa [PipelineState.insertedRows] using this

/-- C3 amended, at `malformedStream` with `totalWorker = 100`: only the row
before the malformed record is sent, the row after it is not, and there is a
run in which `wg.Wait()` returns with exactly that row inserted. -/
theorem C3_malformed_stops_witness :
    ReadError.ErrFieldCount ≠ ReadError.EOF ∧
    (∃ events, readCsvFilePerLineThenSendToWorker (NewReader malformedStream) = some events ∧
      sentJobs events = [sampleRow1] ∧ events.getLast? = some Event.close) ∧
    ∃ sched s, (startPipeline 100 (NewReader malformedStream)).bind (run sched) = some s ∧
      s.waitReturned = true ∧ s.complete = true ∧ s.crashed = false ∧
      s.sent = [sampleRow1] ∧ s.inserted.length = 1 ∧
      (s.insertedRows : Multiset Row) = ([sampleRow1] : Multiset Row) :=
  ⟨by decide,
   (C3_malformed_stops_reading (NewReader malformedStream) [sampleHeader, sampleRow1]
      .ErrFieldCount reads_malformedStream (by decide)).1,
   (C3_malformed_stops_reading (NewReader malformedStream) [sampleHeader, sampleRow1]
      .ErrFieldCount reads_malformedStream (by decide)).2.2 100 (by decide)⟩

/-- C4: when `r.FormFile` returns a nil header, `uploadFile` does not return:
`handler.Filename` is read before `err` is tested, a nil dereference. -/
theorem C4_missing_file_panics (err : Bool) (now : String) (openFileErr copyErr : Bool)
    (openCsv : OpenCsvResult) (sched : List Action) :
    uploadFile { dbOpenErr := false, formFile := { handler := none, err := err }, now := now,
                 openFileErr := openFileErr, copyErr := copyErr, openCsv := openCsv } sched =
      { outcome := .panicked .nilDereference, inserted := [] } := by
  simp [uploadFile]

/-- C5: for a stream of `k` records read to the end of input, the producer
calls `wg.Add(1)` `k - 1` times (0 for `k = 0`); in every state
of every run the counter of the wait group is `adds - dones`, never negative,
with at most `k - 1` increments and no more decrements than increments; in a
complete run (producer returned, all goroutines started and returned) the
increments and the decrements both number `k - 1` (0 for `k = 0`) and the
counter is 0; for a stream of the header alone there is no increment, no
decrement, no insert, and no iteration of `doTheJob` can run; with
`0 ≤ totalWorker` a complete run exists. -/
theorem C5_tracker_counts (totalWorker : Int) (r : Reader) (rows : List Row)
    (h : Reads r rows .EOF) :
    (∃ events, readCsvFilePerLineThenSendToWorker r = some events ∧
      addCount events = rows.length - 1) ∧
    (∀ (sched : List Action) (s : PipelineState),
      (startPipeline totalWorker r).bind (run sched) = some s →
        0 ≤ s.wg ∧ s.wg = (s.adds : Int) - (s.dones : Int) ∧
        s.adds ≤ rows.length - 1 ∧ s.dones ≤ s.adds ∧
        (s.complete = true →
          s.adds = rows.length - 1 ∧ s.dones = rows.length - 1 ∧ s.wg = 0) ∧
        (rows.length ≤ 1 →
          s.adds = 0 ∧ s.dones = 0 ∧ s.inserted = [] ∧
          ∀ (i : Nat) (o : AttemptOutcome), step (.attempt i o) s = none)) ∧
    (0 ≤ totalWorker →
      ∃ sched s, (startPipeline totalWorker r).bind (run sched) = some s ∧
        s.complete = true ∧ s.waitReturned = true ∧ s.crashed = false) := by
  have hlen : rows.tail.length = rows.length - 1 := by simp
  refine ⟨⟨producerTrace rows.tail, readCsv_trace h, by rw [addCount_producerTrace, hlen]⟩, ?_,
    fun htw => complete_run_exists totalWorker htw h⟩
  intro sched s hs
  have hinv : Inv rows.tail s := inv_reachable totalWorker h sched hs
  obtain ⟨c1, c2, -⟩ := hinv.counts_le
  refine ⟨hinv.wg_nonneg, hinv.wg_eq, by omega, c2, ?_, ?_⟩
  · intro hc
    obtain ⟨hev, -, hws⟩ := (complete_iff s).mp hc
    obtain ⟨q1, q2, q3, -⟩ := hinv.quiet hev hws
    exact ⟨by omega, by omega, q3⟩
  · intro hk
    have hnil : rows.tail = [] := List.length_eq_zero.mp (by omega)
    have hsent : s.sent = [] := by
      have := hinv.sent_initial
      rw [hnil] at this
      exact List.prefix_nil.mp this
    obtain ⟨n1, n2⟩ := no_attempt_of_sent_nil hinv hsent
    exact ⟨by omega, by omega, n1, n2⟩

/-- C5 at the sample stream of twelve columns, `totalWorker = 100`: three
records, and a complete run exists. -/
theorem C5_tracker_counts_witness :
    ∃ sched s, (startPipeline 100 (NewReader sampleStream)).bind (run sched) = some s ∧
      s.complete = true ∧ s.waitReturned = true ∧ s.crashed = false :=
  (C5_tracker_counts 100 (NewReader sampleStream) [sampleHeader, sampleRow1, sampleRow2]
    reads_sampleStream).2.2 (by decide)

/-- C6, as stated, fails: for the stream of the header `a,b,c` and the row
`1,2,3` the job sent has three values, not `len(dataHeaders) = 12`. -/
theorem C6_arity_counterexample :
    readCsvFilePerLineThenSendToWorker (NewReader threeColumnStream) =
      some [Event.wgAdd, Event.send ["1", "2", "3"], Event.close] ∧
    (["1", "2", "3"] : Job).length ≠ dataHeaders.length := by
  decide

/-- C6, amended: for a new reader whose first record (the header) has at least
one field, every job sent has exactly as many values as the header has
fields; a record with another number of fields is never sent. -/
theorem C6_arity_of_header (input : List RawRecord) (hdr : Row) (rest : List Row)
    (e : ReadError) (h : Reads (NewReader input) (hdr :: rest) e) (hpos : 0 < hdr.length) :
    (∃ events, readCsvFilePerLineThenSendToWorker (NewReader input) = some events ∧
      ∀ job ∈ sentJobs events, job.length = hdr.length) ∧
    ∀ (totalWorker : Int) (sched : List Action) (s : PipelineState),
      (startPipeline totalWorker (NewReader input)).bind (run sched) = some s →
        ∀ job ∈ s.sent, job.length = hdr.length := by
  have harity := reads_arity_new h hpos
  refine ⟨⟨producerTrace rest, readCsv_trace h, ?_⟩, ?_⟩
  · rw [sentJobs_producerTrace]; exact harity
  · intro totalWorker sched s hs job hjob
    have hinv : Inv rest s := inv_reachable totalWorker h sched hs
    exact harity job (hinv.sent_initial.subset hjob)

/-- C6 amended, at the stream of three columns: the job sent has three values. -/
theorem C6_arity_of_header_witness :
    ∃ events, readCsvFilePerLineThenSendToWorker (NewReader threeColumnStream) = some events ∧
      ∀ job ∈ sentJobs events, job.length = 3 :=
  (C6_arity_of_header threeColumnStream ["a", "b", "c"] [["1", "2", "3"]] .EOF
    reads_threeColumnStream (by decide)).1

/-- C7: `dispatchWorkers` starts the goroutines `0, ..., totalWorker`, one
more than `totalWorker`: 101 for `totalWorker = 100`. -/
theorem C7_dispatch_count :
    (dispatchWorkers totalWorker).map List.length = some 101 ∧
    ∀ tw : Int, 0 ≤ tw →
      (dispatchWorkers tw).map (fun started => (started.length : Int)) = some (tw + 1) := by
  refine ⟨by decide, ?_⟩
  intro tw htw
  rw [dispatchWorkers_eq]
  simp only [Option.map_some', List.length_map, List.length_range, Option.some.injEq]
  omega

/-- C8: for the name `a.b.csv` the code stores `a-<ts>.b`, where the claim
asks for `a.b-<ts>.csv`. -/
theorem C8_two_dots :
    storedFileName "a.b.csv" "20240101000000" = .ok "a-20240101000000.b" ∧
    specStoredFileName "a.b.csv" "20240101000000" = "a.b-20240101000000.csv" ∧
    storedFileName "data.csv" "20240101000000" =
      .ok (specStoredFileName "data.csv" "20240101000000") := by
  refine ⟨rfl, by decide, rfl⟩

/-- C9: for every stream and every two values of `totalWorker`, in a complete
run (which has no failed insert) the rows inserted are, as a multiset, the data
rows of the stream, every job having been handed over once, in order; so two
complete runs with different numbers of workers insert the same multiset of
rows; the same holds once `wg.Wait()` has returned; and with at least one
worker (`0 ≤ totalWorker`) a complete run exists. -/
theorem C9_same_multiset (r : Reader) (rows : List Row) (e : ReadError) (h : Reads r rows e) :
    (∀ (totalWorker : Int) (sched : List Action) (s : PipelineState),
      (startPipeline totalWorker r).bind (run sched) = some s →
        (s.complete = true ∨ s.waitReturned = true) →
          s.sent = rows.tail ∧ s.inserted.length = rows.tail.length ∧
          (s.insertedRows : Multiset Row) = (rows.tail : Multiset Row)) ∧
    (∀ (tw₁ tw₂ : Int) (sched₁ sched₂ : List Action) (s₁ s₂ : PipelineState),
      (startPipeline tw₁ r).bind (run sched₁) = some s₁ →
      (startPipeline tw₂ r).bind (run sched₂) = some s₂ →
      s₁.complete = true → s₂.complete = true →
        (s₁.insertedRows : Multiset Row) = (s₂.insertedRows : Multiset Row)) ∧
    (∀ totalWorker : Int, 0 ≤ totalWorker →
      ∃ sched s, (startPipeline totalWorker r).bind (run sched) = some s ∧
        s.complete = true ∧ s.waitReturned = true ∧ s.crashed = false) := by
  have key : ∀ (totalWorker : Int) (sched : List Action) (s : PipelineState),
      (startPipeline totalWorker r).bind (run sched) = some s →
        (s.complete = true ∨ s.waitReturned = true) →
          s.sent = rows.tail ∧ s.inserted.length = rows.tail.length ∧
          (s.insertedRows : Multiset Row) = (rows.tail : Multiset Row) := by
    intro totalWorker sched s hs hc
    have hinv : Inv rows.tail s := inv_reachable totalWorker h sched hs
    have hm : s.sent = rows.tail ∧
        (s.insertedRows : Multiset Row) = (rows.tail : Multiset Row) := by
      rcases hc with hc | hc
      · obtain ⟨hev, -, hws⟩ := (complete_iff s).mp hc
        exact ⟨(hinv.sent_all hev).1, (hinv.quiet hev hws).2.2.2⟩
      · exact hinv.after_wait hc
    refine ⟨hm.1, ?_, hm.2⟩
    have := congrArg Multiset.card hm.2
    simpa [PipelineState.insertedRows] using this
  refine ⟨key, ?_, fun totalWorker htw => complete_run_exists totalWorker htw h⟩
  intro tw₁ tw₂ sched₁ sched₂ s₁ s₂ h₁ h₂ c₁ c₂
  rw [(key tw₁ sched₁ s₁ h₁ (Or.inl c₁)).2.2, (key tw₂ sched₂ s₂ h₂ (Or.inl c₂)).2.2]

/-- C9 at the sample stream: with one worker (`totalWorker = 0`) a complete run exists. -/
theorem C9_same_multiset_witness :
    ∃ sched s, (startPipeline 0 (NewReader sampleStream)).bind (run sched) = some s ∧
      s.complete = true ∧ s.waitReturned = true ∧ s.crashed = false :=
  (C9_same_multiset (NewReader sampleStream) [sampleHeader, sampleRow1, sampleRow2] .EOF
    reads_sampleStream).2.2 0 (by decide)

/-- C10: the file-name computation of `uploadFile` succeeds exactly when the
original name contains a '.'; then the result is the text before the first
'.', `-`, the timestamp, `.`, and the text between the first '.' and the
second (or the end); for a name without '.' the slice has one element and
`fileArray[1]` is out of range. -/
theorem C10_file_name (name ts : String) :
    ((∃ fileName, storedFileName name ts = .ok fileName) ↔ '.' ∈ name.data) ∧
    ('.' ∈ name.data →
      storedFileName name ts = .ok
        (String.mk (name.data.takeWhile (fun c => decide (c ≠ '.'))) ++ "-" ++ ts ++ "." ++
          String.mk (((name.data.dropWhile (fun c => decide (c ≠ '.'))).drop 1).takeWhile
            (fun c => decide (c ≠ '.'))))) ∧
    ('.' ∉ name.data →
      stringsSplit name '.' = [name] ∧
      storedFileName name ts = .error (.indexOutOfRange 1 1)) := by
  have hyes : '.' ∈ name.data →
      storedFileName name ts = .ok
        (String.mk (name.data.takeWhile (fun c => decide (c ≠ '.'))) ++ "-" ++ ts ++ "." ++
          String.mk (((name.data.dropWhile (fun c => decide (c ≠ '.'))).drop 1).takeWhile
            (fun c => decide (c ≠ '.')))) := by
    intro hmem
    obtain ⟨t, ht⟩ := splitPieces_snd_cons '.' name.data hmem
    simp [storedFileName, stringsSplit, indexSlice, ht, splitPieces_fst]
  have hno : '.' ∉ name.data →
      stringsSplit name '.' = [name] ∧
      storedFileName name ts = .error (.indexOutOfRange 1 1) := by
    intro hmem
    have h2 := splitPieces_snd_nil '.' name.data hmem
    have h1 : (splitPieces '.' name.data).1 = name.data := by
      rw [splitPieces_fst]
      apply List.takeWhile_eq_self_iff.mpr
      intro c hc
      simp only [ne_eq, decide_not, Bool.not_eq_true', decide_eq_false_iff_not]
      rintro rfl
      exact hmem hc
    have hsplit : stringsSplit name '.' = [name] := by
      simp [stringsSplit, h1, h2]
    refine ⟨hsplit, ?_⟩
    simp [storedFileName, hsplit, indexSlice]
  refine ⟨⟨?_, fun hmem => ⟨_, hyes hmem⟩⟩, hyes, hno⟩
  rintro ⟨fileName, hf⟩
  by_contra hmem
  rw [(hno hmem).2] at hf
  cases hf

/-- C10 at `data.csv` and at `data`: the first gives `data-<ts>.csv`, the second panics. -/
theorem C10_file_name_witness :
    storedFileName "data.csv" "20240101000000" = .ok "data-20240101000000.csv" ∧
    storedFileName "data" "20240101000000" = .error (.indexOutOfRange 1 1) :=
  ⟨((C10_file_name "data.csv" "20240101000000").2.1 (by decide)).trans rfl,
   ((C10_file_name "data" "20240101000000").2.2 (by decide)).2⟩

end Upload
